import Mathlib

/-!
Verification of the Quote Scheduling & Conflict Engine of the Lenny_media
backend (`app/services/quote_service.py`, `app/models/quote_helpers.py`,
`app/models/quote.py`), as a shallow embedding.  The persistent store is
modelled as a list of `QuoteRequest` records; each service-layer function is
translated into a pure Lean function over that list.
-/

/-- Time of day: hour and minute (the engine never produces nonzero seconds
for candidate slots, and slot comparisons only involve hours and minutes). -/
structure TimeOfDay where
  hour : Nat
  minute : Nat
deriving DecidableEq, Repr

/-- Minutes since midnight.  Python `time` comparison is lexicographic on
(hour, minute), which for `minute < 60` coincides with comparing this value;
the embedding uses it for all order comparisons on times. -/
def TimeOfDay.toMinutes (t : TimeOfDay) : Nat := t.hour * 60 + t.minute

/-- Calendar dates as day numbers; day 0 is taken to be a Monday, so the
weekday index of a date is `d % 7` (0 = monday .. 6 = sunday). -/
abbrev Date := Nat

/-- `STUDIO_HOURS` table from `quote_service.py` (module constant): open and
close time per weekday.  Every weekday has an entry; the `none` branch mirrors
dictionary lookup failure for an out-of-range key. -/
def STUDIO_HOURS : Nat → Option (TimeOfDay × TimeOfDay)
  | 0 => some (⟨8, 0⟩, ⟨21, 0⟩)    -- monday
  | 1 => some (⟨8, 0⟩, ⟨21, 0⟩)    -- tuesday
  | 2 => some (⟨8, 0⟩, ⟨21, 0⟩)    -- wednesday
  | 3 => some (⟨8, 30⟩, ⟨21, 0⟩)   -- thursday
  | 4 => some (⟨8, 0⟩, ⟨21, 0⟩)    -- friday
  | 5 => some (⟨8, 0⟩, ⟨21, 0⟩)    -- saturday
  | 6 => some (⟨11, 0⟩, ⟨21, 0⟩)   -- sunday
  | _ => none

/-- `MAX_QUOTES_PER_DAY` constant from `quote_service.py`. -/
def MAX_QUOTES_PER_DAY : Nat := 5

/-- `QuoteStatus` enum from `quote.py`. -/
inductive QuoteStatus
  | PENDING
  | SENT
  | ACCEPTED
  | REJECTED
  | CANCELLED
deriving DecidableEq, Repr

/-- `QuoteRequest.is_active` from `quote.py`: status in
PENDING / SENT / ACCEPTED. -/
def QuoteStatus.isActive : QuoteStatus → Bool
  | .PENDING => true
  | .SENT => true
  | .ACCEPTED => true
  | _ => false

/-- The `QuoteRequest` entity (`quote.py`), restricted to the fields the
scheduling engine reads or writes.  `created_at` and `quote_sent_at` /
`cancelled_at` timestamps are abstract instants (Nat). -/
structure QuoteRequest where
  id : Nat
  event_date : Option Date
  event_time : Option TimeOfDay
  status : QuoteStatus
  has_conflict : Bool
  created_at : Nat
  quote_sent_at : Option Nat
  cancelled_at : Option Nat
deriving DecidableEq, Repr

/-- `QuoteRequest.mark_conflict` from `quote.py` (the `conflict_checked_at`
bookkeeping timestamp is not modelled). -/
def QuoteRequest.markConflict (q : QuoteRequest) (v : Bool) : QuoteRequest :=
  { q with has_conflict := v }

/-- `QuoteService._check_time_conflicts`: quotes with the exact date and time
and an active status; the id filter is applied only when the passed id is
truthy (Python `if quote_id:`), i.e. present and nonzero.  Returns the pair
(found-any, matching quotes). -/
def check_time_conflicts (db : List QuoteRequest) (quote_id : Option Nat)
    (d : Date) (t : TimeOfDay) : Bool × List QuoteRequest :=
  let base := db.filter (fun r =>
    decide (r.event_date = some d ∧ r.event_time = some t ∧ r.status.isActive = true))
  let res := match quote_id with
    | some i => if i ≠ 0 then base.filter (fun r => decide (r.id ≠ i)) else base
    | none => base
  (decide (0 < res.length), res)

/-- Stable insertion (ascending by key): the new element goes before the first
element with a key not smaller than its own, matching Python's stable sort. -/
def insertAsc (key : QuoteRequest → Nat) (q : QuoteRequest) :
    List QuoteRequest → List QuoteRequest
  | [] => [q]
  | r :: rs => if key q ≤ key r then q :: r :: rs else r :: insertAsc key q rs

/-- Stable sort ascending by key (models `ORDER BY ... ASC` / `list.sort`). -/
def sortAsc (key : QuoteRequest → Nat) : List QuoteRequest → List QuoteRequest
  | [] => []
  | q :: qs => insertAsc key q (sortAsc key qs)

/-- Stable insertion (descending by key). -/
def insertDesc (key : QuoteRequest → Nat) (q : QuoteRequest) :
    List QuoteRequest → List QuoteRequest
  | [] => [q]
  | r :: rs => if key r ≤ key q then q :: r :: rs else r :: insertDesc key q rs

/-- Stable sort descending by key (models `ORDER BY ... DESC`). -/
def sortDesc (key : QuoteRequest → Nat) : List QuoteRequest → List QuoteRequest
  | [] => []
  | q :: qs => insertDesc key q (sortDesc key qs)

/-- `QuoteService._detect_time_conflicts`: other active quotes in the same
slot as the given quote, ordered by ascending creation time; empty when the
quote lacks a date or a time. -/
def detect_time_conflicts (db : List QuoteRequest) (q : QuoteRequest) :
    List QuoteRequest :=
  match q.event_date, q.event_time with
  | some d, some t =>
    sortAsc (fun r => r.created_at)
      (db.filter (fun r =>
        decide (r.event_date = some d ∧ r.event_time = some t ∧ r.id ≠ q.id ∧
          r.status.isActive = true)))
  | _, _ => []

/-- `QuoteService._update_conflict_state`: clear the flag when date or time is
missing, otherwise store the recomputed conflict value. -/
def update_conflict_state (db : List QuoteRequest) (q : QuoteRequest) :
    QuoteRequest :=
  match q.event_date, q.event_time with
  | some d, some t => q.markConflict (check_time_conflicts db (some q.id) d t).1
  | _, _ => q.markConflict false

/-- Per-quote `time_conflict` payload produced by `_process_quotes`. -/
structure TimeConflictInfo where
  is_priority : Bool
  conflicting_ids : List Nat
  priority_quote : Nat
deriving DecidableEq, Repr

/-- Outcome of the `_process_quotes` loop body for one quote:
`dict_has_conflict` is the `has_conflict` value captured in the response dict
(taken by `as_dict()` before recomputation), `recomputed` the freshly derived
value, `stored` the quote record after reconciliation, and `time_conflict`
the conflict payload attached for PENDING/SENT conflicting quotes. -/
structure ProcessedQuote where
  dict_has_conflict : Bool
  recomputed : Bool
  stored : QuoteRequest
  time_conflict : Option TimeConflictInfo
deriving DecidableEq, Repr

/-- The body of the loop in `QuoteService._process_quotes` for one quote
(list read path): snapshot the response dict, recompute the conflict flag,
reconcile the stored flag when it differs (committing), and build the
`time_conflict` payload with the first-come-first-serve priority bit. -/
def processQuote (db : List QuoteRequest) (q : QuoteRequest) : ProcessedQuote :=
  let dictHC := q.has_conflict
  match q.event_date, q.event_time with
  | some d, some t =>
    let hc := (check_time_conflicts db (some q.id) d t).1
    let q' := if hc ≠ q.has_conflict then q.markConflict hc else q
    let tc : Option TimeConflictInfo :=
      if hc = true ∧ (q'.status = QuoteStatus.PENDING ∨ q'.status = QuoteStatus.SENT) then
        match detect_time_conflicts db q' with
        | [] => none
        | c :: cs =>
          match sortAsc (fun r => r.created_at) (q' :: c :: cs) with
          | [] => none
          | first :: _ =>
            some ⟨decide (first.id = q'.id), (c :: cs).map (fun r => r.id), first.id⟩
      else none
    ⟨dictHC, hc, q', tc⟩
  | _, _ =>
    ⟨dictHC, false, if q.has_conflict then q.markConflict false else q, none⟩

/-- The conflict-recomputation step of `QuoteService.get_quote` (single read
path): recompute and reconcile when both date and time are present; there is
no else-branch, so a quote without a full slot is left untouched and the
response reports `false`. -/
def getQuoteStep (db : List QuoteRequest) (q : QuoteRequest) :
    Bool × QuoteRequest :=
  match q.event_date, q.event_time with
  | some d, some t =>
    let hc := (check_time_conflicts db (some q.id) d t).1
    (hc, if hc ≠ q.has_conflict then q.markConflict hc else q)
  | _, _ => (false, q)

/-- The fixed probe sequence of `_generate_verified_alternative_times`:
hour offsets nearest first, alternating sign. -/
def TIME_OFFSETS : List Int := [1, -1, 2, -2, 3, -3, 4, -4, 5, -5, 6, -6]

/-- Candidate time for an offset: hour shifted modulo 24, minutes kept. -/
def mkAltTime (hour minute : Nat) (off : Int) : TimeOfDay :=
  ⟨(((hour : Int) + off).emod 24).toNat, minute⟩

/-- One verified alternative: the candidate time and the probed offset. -/
structure AltTime where
  time : TimeOfDay
  offset : Int
deriving DecidableEq, Repr

/-- Loop state of `_generate_verified_alternative_times`: times already
checked, verified available times, and the diagnostic counters. -/
structure AltState where
  checked_times : List TimeOfDay
  available : List AltTime
  checked : Nat
  withinHours : Nat
  conflictFree : Nat
deriving DecidableEq, Repr

/-- One iteration of the offset loop in
`_generate_verified_alternative_times`: stop once enough suggestions were
collected, skip duplicate candidate times, reject times outside the studio
hours, reject occupied slots (conflict check excluding the quote itself), and
otherwise record a verified available time. -/
def altStep (db : List QuoteRequest) (qid : Nat) (d : Date) (hour minute : Nat)
    (maxS : Nat) (s e : TimeOfDay) (st : AltState) (off : Int) : AltState :=
  if maxS ≤ st.available.length then st
  else
    let t := mkAltTime hour minute off
    if t ∈ st.checked_times then st
    else if t.toMinutes < s.toMinutes ∨ e.toMinutes < t.toMinutes then
      { st with checked_times := t :: st.checked_times, checked := st.checked + 1 }
    else if (check_time_conflicts db (some qid) d t).1 = true then
      { st with
          checked_times := t :: st.checked_times
          checked := st.checked + 1
          withinHours := st.withinHours + 1 }
    else
      { st with
          checked_times := t :: st.checked_times
          checked := st.checked + 1
          withinHours := st.withinHours + 1
          conflictFree := st.conflictFree + 1
          available := st.available ++ [⟨t, off⟩] }

/-- The offset loop of `_generate_verified_alternative_times`. -/
def altLoop (db : List QuoteRequest) (qid : Nat) (d : Date)
    (hour minute maxS : Nat) (s e : TimeOfDay) (st : AltState) :
    List Int → AltState
  | [] => st
  | off :: rest =>
    altLoop db qid d hour minute maxS s e (altStep db qid d hour minute maxS s e st off) rest

/-- Result of `_generate_verified_alternative_times`. -/
structure AltResult where
  success : Bool
  available_times : List AltTime
  checked : Nat
  withinHours : Nat
  conflictFree : Nat
deriving DecidableEq, Repr

/-- `QuoteService._generate_verified_alternative_times`: fail when the quote
lacks a date or a time or the weekday has no studio hours; otherwise probe the
fixed offset sequence collecting up to `maxS` verified alternatives. -/
def generate_verified_alternative_times (db : List QuoteRequest)
    (q : QuoteRequest) (maxS : Nat) : AltResult :=
  match q.event_date, q.event_time with
  | some d, some t0 =>
    match STUDIO_HOURS (d % 7) with
    | none => ⟨false, [], 0, 0, 0⟩
    | some (s, e) =>
      let st := altLoop db q.id d t0.hour t0.minute maxS s e ⟨[], [], 0, 0, 0⟩ TIME_OFFSETS
      ⟨decide (0 < st.available.length), st.available, st.checked, st.withinHours,
        st.conflictFree⟩
  | _, _ => ⟨false, [], 0, 0, 0⟩

/-- Number of quotes on a date with an active status
(the count query of `_check_quote_limit_strict` and `get_quote`). -/
def countActiveOn (db : List QuoteRequest) (d : Date) : Nat :=
  (db.filter (fun r =>
    decide (r.event_date = some d ∧ r.status.isActive = true))).length

/-- A day the forward scan of `_check_quote_limit_strict` accepts: its weekday
is in the studio-hours table and its active-quote count is under the ceiling. -/
def availDay (db : List QuoteRequest) (x : Date) : Prop :=
  (STUDIO_HOURS (x % 7)).isSome = true ∧ countActiveOn db x < MAX_QUOTES_PER_DAY

instance (db : List QuoteRequest) (x : Date) : Decidable (availDay db x) := by
  unfold availDay; infer_instance

/-- The forward scan of `_check_quote_limit_strict`: starting the day after
`d`, up to `fuel` days, the first date whose weekday has studio hours and
whose active-quote count is under the ceiling. -/
def findAvail (db : List QuoteRequest) (d : Date) : Nat → Option Date
  | 0 => none
  | n + 1 =>
    if availDay db (d + 1) then some (d + 1) else findAvail db (d + 1) n

/-- Errors of the capacity check. -/
inductive CapacityError
  | reschedule (suggested : Date)
  | noCapacity
deriving DecidableEq, Repr

/-- `QuoteService._check_quote_limit_strict`: under the ceiling the requested
date passes unchanged; at or over the ceiling, scan the next 30 days for the
first acceptable date and return it as the suggestion inside a rescheduling
error, or a terminal no-capacity error when the whole window is full. -/
def check_quote_limit_strict (db : List QuoteRequest) (event_date : Date) :
    Option CapacityError × Option Date :=
  if MAX_QUOTES_PER_DAY ≤ countActiveOn db event_date then
    match findAvail db event_date 30 with
    | some d' => (some (.reschedule d'), some d')
    | none => (some .noCapacity, none)
  else (none, some event_date)

/-- The capacity gate inside `QuoteService.create_quote`
(`if error_response: return error_response, 400`): any capacity error rejects
the creation. -/
def create_capacity_gate (db : List QuoteRequest) (event_date : Date) :
    Except CapacityError Date :=
  match check_quote_limit_strict db event_date with
  | (some err, _) => .error err
  | (none, some d) => .ok d
  | (none, none) => .ok event_date

/-- The status-field handling of `QuoteService._update_quote_fields`: the
input models the result of `QuoteStatus[data["status"].upper()]` (`none` is
the `KeyError` case, answered with a 400 error and no change).  A valid status
is applied unconditionally — no transition table is consulted; `cancel()`
stamps `cancelled_at`, and moving to SENT stamps `quote_sent_at` when it was
not set before. -/
def update_status_field (q : QuoteRequest) (now : Nat)
    (status_input : Option QuoteStatus) : Option QuoteRequest :=
  match status_input with
  | none => none
  | some st =>
    let q1 := if st = QuoteStatus.CANCELLED then
        { q with status := QuoteStatus.CANCELLED, cancelled_at := some now }
      else { q with status := st }
    let q2 := if st = QuoteStatus.SENT ∧ q1.quote_sent_at = none then
        { q1 with quote_sent_at := some now }
      else q1
    some q2

/-- Notification templates the update paths can send (one entry per
`send_email` call in `quote_service.py`). -/
inductive EmailKind
  | confirmation
  | adminAlert
  | reschedule
  | quoteSent
  | quoteAccepted
  | quoteRejected
  | cancellation
deriving DecidableEq, Repr

/-- The status-change orchestration of `QuoteService.update_quote` restricted
to a status-only update: apply `_update_quote_fields`, then send exactly one
notification — the reschedule template when `is_reschedule` is set, else the
template matching the new status when the status changed, else none. -/
def update_quote_status (q : QuoteRequest) (now : Nat) (is_reschedule : Bool)
    (status_input : Option QuoteStatus) :
    Option (QuoteRequest × List EmailKind) :=
  let original := q.status
  match update_status_field q now status_input with
  | none => none
  | some q' =>
    let status_changed := match status_input with
      | some ns => decide (ns ≠ original)
      | none => false
    let emails : List EmailKind :=
      if is_reschedule then [EmailKind.reschedule]
      else if status_changed then
        match status_input with
        | some QuoteStatus.SENT => [EmailKind.quoteSent]
        | some QuoteStatus.ACCEPTED => [EmailKind.quoteAccepted]
        | some QuoteStatus.REJECTED => [EmailKind.quoteRejected]
        | some QuoteStatus.CANCELLED => [EmailKind.cancellation]
        | _ => []
      else []
    some (q', emails)

/-- The `UPDATE_STATUS` branch of `QuoteService.bulk_action`: an invalid
status name is rejected; a valid one is assigned on every quote as-is.  The
source sends no notification and stamps no timestamp in this branch, hence
the empty email list. -/
def bulk_update_status (quotes : List QuoteRequest)
    (status_input : Option QuoteStatus) :
    Option (List QuoteRequest × List EmailKind) :=
  match status_input with
  | none => none
  | some st => some (quotes.map (fun q => { q with status := st }), [])

/-- `QuoteService._get_busy_days`: dates carried by at least one active quote
whose active-quote count exceeds the ceiling, with that count. -/
def get_busy_days (db : List QuoteRequest) : List (Date × Nat) :=
  ((db.filterMap (fun q =>
      if q.status.isActive = true then q.event_date else none)).dedup).filterMap
    (fun d =>
      let c := countActiveOn db d
      if MAX_QUOTES_PER_DAY < c then some (d, c) else none)

/-- The excess sub-list of `QuoteService._get_overcrowded_alerts` for one
date: PENDING/SENT quotes on the date ordered by created_at DESCENDING, all
entries beyond the first `MAX_QUOTES_PER_DAY`. -/
def overcrowded_alert_excess (db : List QuoteRequest) (d : Date) :
    List QuoteRequest :=
  let qs := sortDesc (fun r => r.created_at)
    (db.filter (fun r =>
      decide (r.event_date = some d ∧
        (r.status = QuoteStatus.PENDING ∨ r.status = QuoteStatus.SENT))))
  if MAX_QUOTES_PER_DAY < qs.length then qs.drop MAX_QUOTES_PER_DAY else []

/-- `QuoteService._get_overcrowded_alerts`: one alert per busy day, carrying
the date, the active count, and the ids of the excess quotes. -/
def get_overcrowded_alerts (db : List QuoteRequest) :
    List (Date × Nat × List Nat) :=
  (get_busy_days db).map (fun p =>
    (p.1, p.2, (overcrowded_alert_excess db p.1).map (fun r => r.id)))

/-- The excess computation of the `overcrowded_day` branch of
`QuoteService.cleanup_quotes`: PENDING/SENT quotes on the date ordered by
created_at ASCENDING; when more than the ceiling, everything beyond the first
`MAX_QUOTES_PER_DAY` is deleted (the earliest ones are kept). -/
def cleanup_overcrowded_excess (db : List QuoteRequest) (d : Date) :
    List QuoteRequest :=
  let qs := sortAsc (fun r => r.created_at)
    (db.filter (fun r =>
      decide (r.event_date = some d ∧
        (r.status = QuoteStatus.PENDING ∨ r.status = QuoteStatus.SENT))))
  if qs.length ≤ MAX_QUOTES_PER_DAY then [] else qs.drop MAX_QUOTES_PER_DAY

/-- A catalog `Service` row (`service.py`), restricted to the fields the
enricher reads. -/
structure Service where
  id : Nat
  is_active : Bool
  price_min : Option ℚ
  price_max : Option ℚ
deriving DecidableEq, Repr

/-- A service dictionary as stored in `selected_services`: possibly carrying
a `service_id` key, an `id` key, and price bounds. -/
structure ServiceDict where
  service_id : Option Nat
  idField : Option Nat
  price_min : Option ℚ
  price_max : Option ℚ
deriving DecidableEq, Repr

/-- The duck-typed shapes `enrich_selected_services` accepts: a bare integer
id, a dictionary, or anything else (skipped). -/
inductive ServiceRef
  | intRef (n : Nat)
  | dictRef (sd : ServiceDict)
  | other
deriving DecidableEq, Repr

/-- `db_session.query(Service).filter_by(id=service_id, is_active=True)
.first()`. -/
def lookup_active (catalog : List Service) (i : Nat) : Option Service :=
  catalog.find? (fun s => decide (s.id = i ∧ s.is_active = true))

/-- Python truthiness of an optional integer: present and nonzero. -/
def truthyNat : Option Nat → Bool
  | none => false
  | some n => decide (n ≠ 0)

/-- `item.get('service_id') or item.get('id')`: the `service_id` value when
truthy, otherwise the `id` value. -/
def refId (sd : ServiceDict) : Option Nat :=
  if truthyNat sd.service_id then sd.service_id else sd.idField

/-- `x if x else None` on a price: zero prices are normalized to null
(Python truthiness in `float(service.price_min) if service.price_min ...`). -/
def truthyPrice : Option ℚ → Option ℚ
  | none => none
  | some p => if p = 0 then none else some p

/-- The snapshot `enrich_selected_services` materializes from a catalog
row. -/
def snapshotOf (s : Service) : ServiceDict :=
  { service_id := some s.id, idField := some s.id,
    price_min := truthyPrice s.price_min, price_max := truthyPrice s.price_max }

/-- The per-item step of `enrich_selected_services` (`quote_helpers.py`):
an already-enriched dictionary (some price present, compared with `is not
None`) passes through unchanged; otherwise the reference id is extracted,
falsy ids and unknown shapes are skipped, and the active catalog entry is
looked up — a missing or inactive service yields nothing (silent drop). -/
def enrich_one (catalog : List Service) : ServiceRef → Option ServiceDict
  | .intRef n =>
    if n ≠ 0 then (lookup_active catalog n).map snapshotOf else none
  | .dictRef sd =>
    if sd.price_min.isSome ∨ sd.price_max.isSome then
      some { service_id := refId sd, idField := refId sd,
             price_min := sd.price_min, price_max := sd.price_max }
    else
      match refId sd with
      | some i => if i ≠ 0 then (lookup_active catalog i).map snapshotOf else none
      | none => none
  | .other => none

/-- `enrich_selected_services`: the loop over the references, dropped items
contributing nothing. -/
def enrich_selected_services (catalog : List Service) (refs : List ServiceRef) :
    List ServiceDict :=
  refs.filterMap (enrich_one catalog)

/-- Errors of `validate_service_selection`. -/
inductive ValErr
  | empty
  | missingId
  | invalidFormat
  | notFound (i : Nat)
deriving DecidableEq, Repr

/-- The loop of `validate_service_selection`: every reference must carry a
truthy id (bare integers are passed to the lookup unguarded) and resolve to
an active catalog entry; the first failure is reported. -/
def validateLoop (catalog : List Service) : List ServiceRef → Option ValErr
  | [] => none
  | r :: rest =>
    match r with
    | .intRef n =>
      match lookup_active catalog n with
      | some _ => validateLoop catalog rest
      | none => some (.notFound n)
    | .dictRef sd =>
      match refId sd with
      | some i =>
        if i ≠ 0 then
          match lookup_active catalog i with
          | some _ => validateLoop catalog rest
          | none => some (.notFound i)
        else some .missingId
      | none => some .missingId
    | .other => some .invalidFormat

/-- `validate_service_selection` (`quote_helpers.py`): empty selections are
rejected, then every reference is checked. -/
def validate_service_selection (catalog : List Service)
    (refs : List ServiceRef) : Option ValErr :=
  match refs with
  | [] => some .empty
  | _ => validateLoop catalog refs

/-- Errors of the service-handling stage of `create_quote`. -/
inductive CreateErr
  | validation (e : ValErr)
  | noValidServices
deriving DecidableEq, Repr

/-- The service-handling stage of `QuoteService.create_quote`: validate the
selection (any invalid reference rejects the request), then enrich, then fail
with "No valid services found" when the enriched list is empty. -/
def create_services_stage (catalog : List Service) (refs : List ServiceRef) :
    Except CreateErr (List ServiceDict) :=
  match validate_service_selection catalog refs with
  | some e => .error (.validation e)
  | none =>
    let enriched := enrich_selected_services catalog refs
    if enriched.isEmpty then .error .noValidServices else .ok enriched

/-- Python truthiness of an optional price: present and nonzero. -/
def truthyQ : Option ℚ → Bool
  | none => false
  | some p => decide (p ≠ 0)

/-- First accumulation pass of `calculate_price_estimate`: `price_min` and
`price_max` are added when present (`is not None`), and `service_count` is
incremented exactly when `price_min` is present. -/
def estLoop (acc : ℚ × ℚ × Nat) : List ServiceDict → ℚ × ℚ × Nat
  | [] => acc
  | sv :: rest =>
    let acc1 := match sv.price_min with
      | some p => (acc.1 + p, acc.2.1, acc.2.2 + 1)
      | none => acc
    let acc2 := match sv.price_max with
      | some p => (acc1.1, acc1.2.1 + p, acc1.2.2)
      | none => acc1
    estLoop acc2 rest

/-- Accumulator of the fallback pass of `calculate_price_estimate`. -/
structure AvailAcc where
  availMin : ℚ
  minCount : Nat
  availMax : ℚ
  maxCount : Nat
deriving DecidableEq, Repr

/-- One iteration of the fallback pass of `calculate_price_estimate`: the
*truthy* prices (`if service.get('price_min'):`) are added and counted. -/
def availStep (acc : AvailAcc) (sv : ServiceDict) : AvailAcc :=
  let acc1 := match sv.price_min with
    | some p => if p ≠ 0 then
        { acc with availMin := acc.availMin + p, minCount := acc.minCount + 1 }
      else acc
    | none => acc
  match sv.price_max with
  | some p => if p ≠ 0 then
      { acc1 with availMax := acc1.availMax + p, maxCount := acc1.maxCount + 1 }
    else acc1
  | none => acc1

/-- The fallback pass of `calculate_price_estimate`. -/
def availLoop (acc : AvailAcc) : List ServiceDict → AvailAcc
  | [] => acc
  | sv :: rest => availLoop (availStep acc sv) rest

/-- Result of `calculate_price_estimate`: "Price on request" with null
bounds, a definite range, or an average-based extrapolation flagged
`estimated` (the formatted display string is presentation only and not
modelled). -/
inductive PriceEstimate
  | onRequest (service_count : Nat)
  | definite (min_estimate max_estimate : ℚ) (service_count : Nat)
  | estimated (min_estimate max_estimate : ℚ) (service_count : Nat)
deriving DecidableEq, Repr

/-- `calculate_price_estimate` (`quote_helpers.py`). -/
def calculate_price_estimate (ss : List ServiceDict) : PriceEstimate :=
  match ss with
  | [] => .onRequest 0
  | _ =>
    let acc := estLoop (0, 0, 0) ss
    if acc.1 = 0 ∧ acc.2.1 = 0 then
      let hasAnyPricing := ss.any (fun sv => truthyQ sv.price_min || truthyQ sv.price_max)
      if hasAnyPricing = true then
        let p := availLoop ⟨0, 0, 0, 0⟩ ss
        if 0 < p.minCount ∧ 0 < p.maxCount then
          .estimated (p.availMin / (p.minCount : ℚ) * (ss.length : ℚ))
            (p.availMax / (p.maxCount : ℚ) * (ss.length : ℚ)) ss.length
        else .onRequest ss.length
      else .onRequest ss.length
    else .definite acc.1 acc.2.1 acc.2.2

theorem QuoteRequest.markConflict_id (q : QuoteRequest) (v : Bool) :
    (q.markConflict v).id = q.id := rfl

theorem QuoteRequest.markConflict_event_date (q : QuoteRequest) (v : Bool) :
    (q.markConflict v).event_date = q.event_date := rfl

theorem QuoteRequest.markConflict_event_time (q : QuoteRequest) (v : Bool) :
    (q.markConflict v).event_time = q.event_time := rfl

theorem QuoteRequest.markConflict_status (q : QuoteRequest) (v : Bool) :
    (q.markConflict v).status = q.status := rfl

theorem QuoteRequest.markConflict_created_at (q : QuoteRequest) (v : Bool) :
    (q.markConflict v).created_at = q.created_at := rfl

theorem QuoteRequest.markConflict_has_conflict (q : QuoteRequest) (v : Bool) :
    (q.markConflict v).has_conflict = v := rfl

theorem reconcile_markConflict (q : QuoteRequest) (hc : Bool) :
    (if hc ≠ q.has_conflict then q.markConflict hc else q) = q.markConflict hc := by
  by_cases h : hc = q.has_conflict
  · subst h
    simp [QuoteRequest.markConflict]
  · simp [h]

theorem check_time_conflicts_true_iff (db : List QuoteRequest) (i : Nat)
    (hi : i ≠ 0) (d : Date) (t : TimeOfDay) :
    (check_time_conflicts db (some i) d t).1 = true ↔
      ∃ r ∈ db, r.id ≠ i ∧ r.event_date = some d ∧ r.event_time = some t ∧
        r.status.isActive = true := by
  simp only [check_time_conflicts, hi, ne_eq, not_false_eq_true, if_true,
    decide_eq_true_eq, List.length_pos_iff_exists_mem, List.mem_filter]
  constructor
  · rintro ⟨r, ⟨⟨hr, hp⟩, hq⟩⟩
    exact ⟨r, hr, hq, hp.1, hp.2.1, hp.2.2⟩
  · rintro ⟨r, hr, hid, hd, ht, ha⟩
    exact ⟨r, ⟨hr, hd, ht, ha⟩, hid⟩

theorem mem_insertAsc (key : QuoteRequest → Nat) (q x : QuoteRequest) :
    ∀ l : List QuoteRequest, x ∈ insertAsc key q l ↔ x = q ∨ x ∈ l := by
  intro l
  induction l with
  | nil => simp [insertAsc]
  | cons r rs ih =>
    simp only [insertAsc]
    split
    · simp [List.mem_cons]
    · simp only [List.mem_cons, ih]
      tauto

theorem mem_sortAsc (key : QuoteRequest → Nat) (x : QuoteRequest) :
    ∀ l : List QuoteRequest, x ∈ sortAsc key l ↔ x ∈ l := by
  intro l
  induction l with
  | nil => simp [sortAsc]
  | cons r rs ih =>
    simp only [sortAsc, mem_insertAsc, ih, List.mem_cons]

theorem sortAsc_head_min (key : QuoteRequest → Nat) :
    ∀ (l : List QuoteRequest) (h : QuoteRequest) (t' : List QuoteRequest),
      sortAsc key l = h :: t' → h ∈ l ∧ ∀ x ∈ l, key h ≤ key x := by
  intro l
  induction l with
  | nil => intro h t' heq; simp [sortAsc] at heq
  | cons q qs ih =>
    intro h t' heq
    simp only [sortAsc] at heq
    cases hqs : sortAsc key qs with
    | nil =>
      rw [hqs] at heq
      simp only [insertAsc] at heq
      injection heq with h1 h2
      subst h1
      refine ⟨List.mem_cons_self _ _, ?_⟩
      intro x hx
      rcases List.mem_cons.mp hx with rfl | hx'
      · exact le_refl _
      · have hxs : x ∈ sortAsc key qs := (mem_sortAsc key x qs).mpr hx'
        rw [hqs] at hxs
        cases hxs
    | cons r rs =>
      rw [hqs] at heq
      simp only [insertAsc] at heq
      have hr := ih r rs hqs
      by_cases hle : key q ≤ key r
      · rw [if_pos hle] at heq
        injection heq with h1 h2
        subst h1
        refine ⟨List.mem_cons_self _ _, ?_⟩
        intro x hx
        rcases List.mem_cons.mp hx with rfl | hx'
        · exact le_refl _
        · exact le_trans hle (hr.2 x hx')
      · rw [if_neg hle] at heq
        injection heq with h1 h2
        subst h1
        refine ⟨List.mem_cons_of_mem _ hr.1, ?_⟩
        intro x hx
        rcases List.mem_cons.mp hx with rfl | hx'
        · exact le_of_not_le hle
        · exact hr.2 x hx'

theorem mem_detect_time_conflicts (db : List QuoteRequest) (q r : QuoteRequest)
    (d : Date) (t : TimeOfDay) (hd : q.event_date = some d)
    (ht : q.event_time = some t) :
    r ∈ detect_time_conflicts db q ↔
      r ∈ db ∧ r.event_date = some d ∧ r.event_time = some t ∧ r.id ≠ q.id ∧
        r.status.isActive = true := by
  simp only [detect_time_conflicts, hd, ht, mem_sortAsc, List.mem_filter,
    decide_eq_true_eq]

theorem detect_markConflict (db : List QuoteRequest) (q : QuoteRequest)
    (v : Bool) :
    detect_time_conflicts db (q.markConflict v) = detect_time_conflicts db q := rfl

/-- Concrete slot used by the witness databases. -/
def wTime : TimeOfDay := ⟨12, 0⟩

/-- A pending quote on day 0 at 12:00. -/
def wQ1 : QuoteRequest :=
  { id := 1, event_date := some 0, event_time := some wTime,
    status := QuoteStatus.PENDING, has_conflict := false, created_at := 0,
    quote_sent_at := none, cancelled_at := none }

/-- A later pending quote on the same slot. -/
def wQ2 : QuoteRequest := { wQ1 with id := 2, created_at := 1 }

/-- A two-quote store with both quotes on the same slot. -/
def wDB : List QuoteRequest := [wQ1, wQ2]

/-- A lone quote whose cached conflict flag is stale (true with no other
quote in the store). -/
def cQstale : QuoteRequest := { wQ1 with has_conflict := true }

/-- Store containing only the stale-flagged quote. -/
def cDBstale : List QuoteRequest := [cQstale]

/-- C1 counterexample: in the list read path the response dict is snapshotted
before the conflict flag is recomputed, so for a quote whose cached flag is
true while no other quote occupies the slot, the response still reports
`has_conflict = true` even though the recomputed value is false (and false is
what gets persisted).  The claimed equivalence between the reported value and
the existence of a conflicting quote therefore fails on the list path. -/
theorem C1_list_response_stale_counterexample :
    (processQuote cDBstale cQstale).dict_has_conflict = true ∧
    (processQuote cDBstale cQstale).recomputed = false ∧
    (processQuote cDBstale cQstale).stored.has_conflict = false ∧
    (check_time_conflicts cDBstale (some cQstale.id) 0 wTime).1 = false := by
  decide

/-- C1 (amended): for a quote with both `event_date` and `event_time` and a
truthy id, on both read paths the *recomputed* conflict value is true exactly
when another quote with the same date, same time, active status and different
id exists, and the stored flag is reconciled to that recomputed value; the
single get reports the recomputed value, while the list path's response dict
carries the flag captured before reconciliation (the previously stored
value). -/
theorem C1_read_paths_recompute_and_reconcile (db : List QuoteRequest)
    (q : QuoteRequest) (d : Date) (t : TimeOfDay) (hd : q.event_date = some d)
    (ht : q.event_time = some t) (hid : q.id ≠ 0) :
    ((getQuoteStep db q).1 = true ↔
      ∃ r ∈ db, r.id ≠ q.id ∧ r.event_date = some d ∧ r.event_time = some t ∧
        r.status.isActive = true) ∧
    (getQuoteStep db q).2.has_conflict = (getQuoteStep db q).1 ∧
    ((processQuote db q).recomputed = true ↔
      ∃ r ∈ db, r.id ≠ q.id ∧ r.event_date = some d ∧ r.event_time = some t ∧
        r.status.isActive = true) ∧
    (processQuote db q).stored.has_conflict = (processQuote db q).recomputed ∧
    (processQuote db q).dict_has_conflict = q.has_conflict := by
  have hiff := check_time_conflicts_true_iff db q.id hid d t
  refine ⟨?_, ?_, ?_, ?_, ?_⟩
  · simpa only [getQuoteStep, hd, ht] using hiff
  · simp only [getQuoteStep, hd, ht]
    rw [reconcile_markConflict]
    rfl
  · simpa only [processQuote, hd, ht] using hiff
  · simp only [processQuote, hd, ht]
    rw [reconcile_markConflict]
    rfl
  · simp only [processQuote, hd, ht]

/-- C1 witness: the amended theorem applied to a concrete two-quote store. -/
theorem C1_read_paths_recompute_and_reconcile_witness :
    (wQ1.event_date = some 0 ∧ wQ1.event_time = some wTime ∧ wQ1.id ≠ 0) ∧
    (((getQuoteStep wDB wQ1).1 = true ↔
      ∃ r ∈ wDB, r.id ≠ wQ1.id ∧ r.event_date = some 0 ∧
        r.event_time = some wTime ∧ r.status.isActive = true) ∧
    (getQuoteStep wDB wQ1).2.has_conflict = (getQuoteStep wDB wQ1).1 ∧
    ((processQuote wDB wQ1).recomputed = true ↔
      ∃ r ∈ wDB, r.id ≠ wQ1.id ∧ r.event_date = some 0 ∧
        r.event_time = some wTime ∧ r.status.isActive = true) ∧
    (processQuote wDB wQ1).stored.has_conflict = (processQuote wDB wQ1).recomputed ∧
    (processQuote wDB wQ1).dict_has_conflict = wQ1.has_conflict) :=
  ⟨⟨rfl, rfl, by decide⟩,
    C1_read_paths_recompute_and_reconcile wDB wQ1 0 wTime rfl rfl (by decide)⟩

/-- A quote with a cached true conflict flag but no event date. -/
def cQnoDate : QuoteRequest :=
  { id := 7, event_date := none, event_time := some wTime,
    status := QuoteStatus.PENDING, has_conflict := true, created_at := 0,
    quote_sent_at := none, cancelled_at := none }

/-- C10 counterexample: the single-get path has no else-branch for quotes
without a full slot, so a stale true flag is reported as false but *not*
cleared in the store — the quote retains `has_conflict = true` after the
read, contradicting the claim that every read path persists the correction. -/
theorem C10_single_get_no_persist_counterexample :
    (getQuoteStep [cQnoDate] cQnoDate).1 = false ∧
    (getQuoteStep [cQnoDate] cQnoDate).2 = cQnoDate ∧
    cQnoDate.has_conflict = true ∧
    (processQuote [cQnoDate] cQnoDate).stored.has_conflict = false := by
  decide

/-- C10 (amended): for a quote lacking `event_date` or `event_time`, the list
read path and the conflict-state update clear the stored flag (the list path
persisting the change), and the single get reports false — but the single get
leaves the stored record untouched, so it does not persist the correction. -/
theorem processQuote_missing_slot (db : List QuoteRequest) (q : QuoteRequest)
    (h : q.event_date = none ∨ q.event_time = none) :
    processQuote db q =
      ⟨q.has_conflict, false,
        if q.has_conflict then q.markConflict false else q, none⟩ := by
  rcases h with h | h
  · simp only [processQuote, h]
  · simp only [processQuote, h]
    cases q.event_date <;> rfl

theorem getQuoteStep_missing_slot (db : List QuoteRequest) (q : QuoteRequest)
    (h : q.event_date = none ∨ q.event_time = none) :
    getQuoteStep db q = (false, q) := by
  rcases h with h | h
  · simp only [getQuoteStep, h]
  · simp only [getQuoteStep, h]
    cases q.event_date <;> rfl

theorem update_conflict_state_missing_slot (db : List QuoteRequest)
    (q : QuoteRequest) (h : q.event_date = none ∨ q.event_time = none) :
    update_conflict_state db q = q.markConflict false := by
  rcases h with h | h
  · simp only [update_conflict_state, h]
  · simp only [update_conflict_state, h]
    cases q.event_date <;> rfl

theorem C10_missing_slot_clears_flag (db : List QuoteRequest)
    (q : QuoteRequest) (h : q.event_date = none ∨ q.event_time = none) :
    (processQuote db q).recomputed = false ∧
    (processQuote db q).stored.has_conflict = false ∧
    (processQuote db q).time_conflict = none ∧
    (update_conflict_state db q).has_conflict = false ∧
    (getQuoteStep db q).1 = false ∧
    (getQuoteStep db q).2 = q := by
  rw [processQuote_missing_slot db q h, getQuoteStep_missing_slot db q h,
    update_conflict_state_missing_slot db q h]
  refine ⟨rfl, ?_, rfl, rfl, rfl, rfl⟩
  by_cases hq : q.has_conflict <;> simp [hq, QuoteRequest.markConflict]

/-- C10 witness: the amended theorem applied to the concrete quote without a
date. -/
theorem C10_missing_slot_clears_flag_witness :
    (cQnoDate.event_date = none ∨ cQnoDate.event_time = none) ∧
    ((processQuote [cQnoDate] cQnoDate).recomputed = false ∧
     (processQuote [cQnoDate] cQnoDate).stored.has_conflict = false ∧
     (processQuote [cQnoDate] cQnoDate).time_conflict = none ∧
     (update_conflict_state [cQnoDate] cQnoDate).has_conflict = false ∧
     (getQuoteStep [cQnoDate] cQnoDate).1 = false ∧
     (getQuoteStep [cQnoDate] cQnoDate).2 = cQnoDate) :=
  ⟨Or.inl rfl, C10_missing_slot_clears_flag [cQnoDate] cQnoDate (Or.inl rfl)⟩

/-- A rejected quote (terminal state per the specified transition table). -/
def cQrejected : QuoteRequest :=
  { id := 3, event_date := none, event_time := none,
    status := QuoteStatus.REJECTED, has_conflict := false, created_at := 0,
    quote_sent_at := none, cancelled_at := none }

/-- C2: the code performs no transition-table check — a REJECTED quote moved
to ACCEPTED is applied and reported as a success on both the single-update
path (`_update_quote_fields`) and the bulk path (`bulk_action`), in
contradiction with the specified state machine where REJECTED is terminal. -/
theorem C2_rejected_to_accepted_applied :
    cQrejected.status = QuoteStatus.REJECTED ∧
    (update_status_field cQrejected 100 (some QuoteStatus.ACCEPTED)).map
      (fun r => r.status) = some QuoteStatus.ACCEPTED ∧
    (update_quote_status cQrejected 100 false (some QuoteStatus.ACCEPTED)).map
      (fun p => p.1.status) = some QuoteStatus.ACCEPTED ∧
    (bulk_update_status [cQrejected] (some QuoteStatus.ACCEPTED)).map
      (fun p => p.1.map (fun r => r.status)) = some [QuoteStatus.ACCEPTED] := by
  decide

/-- Pending quote number `i` on day 0 at 12:00, created at instant `i`. -/
def oQuote (i : Nat) : QuoteRequest :=
  { id := i, event_date := some 0, event_time := some wTime,
    status := QuoteStatus.PENDING, has_conflict := false, created_at := i,
    quote_sent_at := none, cancelled_at := none }

/-- Six pending quotes on the same day — one more than the ceiling. -/
def oDB : List QuoteRequest :=
  [oQuote 1, oQuote 2, oQuote 3, oQuote 4, oQuote 5, oQuote 6]

/-- C6: on a day with six pending quotes created in order 1..6, the alert
path sorts by `created_at` DESCENDING and drops the first five, so it reports
the *earliest*-created quote (id 1) as the excess — while the cleanup
endpoint the alert points at sorts ASCENDING and would delete quote 6, and
the claim says the excess are the quotes beyond the first five by ascending
creation (i.e. quote 6).  The alert thus contradicts both the claim and the
cleanup behaviour it advertises. -/
theorem C6_overcrowded_alert_orders_desc :
    get_busy_days oDB = [(0, 6)] ∧
    get_overcrowded_alerts oDB = [(0, 6, [1])] ∧
    (cleanup_overcrowded_excess oDB 0).map (fun r => r.id) = [6] := by
  decide

/-- A pending quote that was never sent. -/
def cQpending : QuoteRequest :=
  { id := 4, event_date := none, event_time := none,
    status := QuoteStatus.PENDING, has_conflict := false, created_at := 0,
    quote_sent_at := none, cancelled_at := none }

/-- C7 counterexample: the bulk status-update applied to a pending quote
moves it to SENT but leaves `quote_sent_at` unset and sends no notification
(the email list of the bulk branch is empty), so the claimed side effects do
not fire on the bulk path. -/
theorem C7_bulk_no_side_effects_counterexample :
    bulk_update_status [cQpending] (some QuoteStatus.SENT) =
      some ([{ cQpending with status := QuoteStatus.SENT }], []) ∧
    ({ cQpending with status := QuoteStatus.SENT }).quote_sent_at = none := by
  decide

/-- C7 (amended): on the single update path a transition to SENT stamps
`quote_sent_at` (when not already stamped) and sends exactly one quote-ready
notification; the bulk status-update path assigns the status to every quote
but stamps nothing and sends no notification. -/
theorem C7_sent_side_effects (q : QuoteRequest) (now : Nat)
    (hst : q.status ≠ QuoteStatus.SENT) (hsent : q.quote_sent_at = none) :
    update_quote_status q now false (some QuoteStatus.SENT) =
      some ({ q with status := QuoteStatus.SENT, quote_sent_at := some now },
        [EmailKind.quoteSent]) ∧
    ∀ qs : List QuoteRequest,
      bulk_update_status qs (some QuoteStatus.SENT) =
        some (qs.map (fun r => { r with status := QuoteStatus.SENT }), []) := by
  constructor
  · have h1 : QuoteStatus.SENT ≠ q.status := fun h => hst h.symm
    simp [update_quote_status, update_status_field, hsent, h1]
  · intro qs
    rfl

/-- C7 witness: the amended theorem applied to the concrete pending quote. -/
theorem C7_sent_side_effects_witness :
    (cQpending.status ≠ QuoteStatus.SENT ∧ cQpending.quote_sent_at = none) ∧
    (update_quote_status cQpending 100 false (some QuoteStatus.SENT) =
      some ({ cQpending with status := QuoteStatus.SENT, quote_sent_at := some 100 },
        [EmailKind.quoteSent]) ∧
     ∀ qs : List QuoteRequest,
       bulk_update_status qs (some QuoteStatus.SENT) =
         some (qs.map (fun r => { r with status := QuoteStatus.SENT }), [])) :=
  ⟨⟨by decide, rfl⟩, C7_sent_side_effects cQpending 100 (by decide) rfl⟩

theorem findAvail_none_iff (db : List QuoteRequest) :
    ∀ (n d : Nat), findAvail db d n = none ↔
      ∀ j, 1 ≤ j → j ≤ n → ¬ availDay db (d + j) := by
  intro n
  induction n with
  | zero =>
    intro d
    constructor
    · intro _ j h1 h2
      omega
    · intro _
      rfl
  | succ n ih =>
    intro d
    rw [findAvail]
    by_cases hav : availDay db (d + 1)
    · rw [if_pos hav]
      constructor
      · intro h
        simp at h
      · intro h
        exact absurd hav (h 1 le_rfl (by omega))
    · rw [if_neg hav]
      rw [ih (d + 1)]
      constructor
      · intro h j h1 h2
        by_cases hj : j = 1
        · subst hj
          simpa using hav
        · have := h (j - 1) (by omega) (by omega)
          have heq : d + 1 + (j - 1) = d + j := by omega
          rwa [heq] at this
      · intro h j h1 h2
        have heq : d + 1 + j = d + (j + 1) := by omega
        rw [heq]
        exact h (j + 1) (by omega) (by omega)

theorem findAvail_some_first (db : List QuoteRequest) :
    ∀ (n d e : Nat), findAvail db d n = some e →
      d < e ∧ e ≤ d + n ∧ availDay db e ∧
        ∀ x, d < x → x < e → ¬ availDay db x := by
  intro n
  induction n with
  | zero =>
    intro d e h
    simp [findAvail] at h
  | succ n ih =>
    intro d e h
    rw [findAvail] at h
    by_cases hav : availDay db (d + 1)
    · rw [if_pos hav] at h
      injection h with h'
      subst h'
      exact ⟨by omega, by omega, hav, fun x hx1 hx2 => absurd hx2 (by omega)⟩
    · rw [if_neg hav] at h
      obtain ⟨ha, hb, hc, hd'⟩ := ih (d + 1) e h
      refine ⟨by omega, by omega, hc, ?_⟩
      intro x hx1 hx2
      by_cases hx : x = d + 1
      · subst hx
        exact hav
      · exact hd' x (by omega) hx2

/-- C4: when the active-quote count of the requested date is under the
ceiling the check succeeds with the date unchanged; at or over the ceiling it
fails, and when some day in the next 30 both has studio hours and is under
the ceiling the error carries the first such day as the suggestion, while an
exhausted window yields the terminal no-capacity error without a suggestion
and the creation gate rejects. -/
theorem C4_capacity_check (db : List QuoteRequest) (d : Nat) :
    (countActiveOn db d < MAX_QUOTES_PER_DAY →
      check_quote_limit_strict db d = (none, some d) ∧
      create_capacity_gate db d = Except.ok d) ∧
    (MAX_QUOTES_PER_DAY ≤ countActiveOn db d →
      ((∃ j, 1 ≤ j ∧ j ≤ 30 ∧ availDay db (d + j)) →
        ∃ e, check_quote_limit_strict db d =
            (some (CapacityError.reschedule e), some e) ∧
          d < e ∧ e ≤ d + 30 ∧ availDay db e ∧
          ∀ x, d < x → x < e → ¬ availDay db x) ∧
      ((∀ j, 1 ≤ j → j ≤ 30 → ¬ availDay db (d + j)) →
        check_quote_limit_strict db d = (some CapacityError.noCapacity, none) ∧
        create_capacity_gate db d = Except.error CapacityError.noCapacity)) := by
  constructor
  · intro h
    have hn : ¬ MAX_QUOTES_PER_DAY ≤ countActiveOn db d := by omega
    constructor
    · simp [check_quote_limit_strict, hn]
    · simp [create_capacity_gate, check_quote_limit_strict, hn]
  · intro h
    constructor
    · rintro ⟨j, h1, h2, h3⟩
      have hne : findAvail db d 30 ≠ none := by
        intro hnone
        exact (findAvail_none_iff db 30 d).mp hnone j h1 h2 h3
      obtain ⟨e, he⟩ := Option.ne_none_iff_exists'.mp hne
      obtain ⟨ha, hb, hc, hd'⟩ := findAvail_some_first db 30 d e he
      refine ⟨e, ?_, ha, hb, hc, hd'⟩
      simp [check_quote_limit_strict, h, he]
    · intro hall
      have hnone : findAvail db d 30 = none := (findAvail_none_iff db 30 d).mpr hall
      constructor
      · simp [check_quote_limit_strict, h, hnone]
      · simp [create_capacity_gate, check_quote_limit_strict, h, hnone]

/-- C4 witness: the theorem applied to the empty store (under the ceiling,
date kept) and to the six-quote day (over the ceiling, next day suggested). -/
theorem C4_capacity_check_witness :
    (countActiveOn ([] : List QuoteRequest) 0 < MAX_QUOTES_PER_DAY ∧
      (check_quote_limit_strict [] 0 = (none, some 0) ∧
       create_capacity_gate [] 0 = Except.ok 0)) ∧
    (MAX_QUOTES_PER_DAY ≤ countActiveOn oDB 0 ∧
      ∃ e, check_quote_limit_strict oDB 0 =
          (some (CapacityError.reschedule e), some e) ∧
        0 < e ∧ e ≤ 0 + 30 ∧ availDay oDB e ∧
        ∀ x, 0 < x → x < e → ¬ availDay oDB x) :=
  ⟨⟨by decide, (C4_capacity_check [] 0).1 (by decide)⟩,
   ⟨by decide, ((C4_capacity_check oDB 0).2 (by decide)).1
      ⟨1, by decide, by decide, by decide⟩⟩⟩

/-- An active catalog service with prices. -/
def wService1 : Service :=
  { id := 1, is_active := true, price_min := some 100, price_max := some 200 }

/-- A one-service catalog: id 2 does not exist. -/
def wCatalog : List Service := [wService1]

/-- C8 counterexample: a creation whose selection references the nonexistent
service 2 is rejected by `validate_service_selection` with a per-service
not-found error; it is not silently dropped and the failure is not the
"no valid services" error — even though enrichment itself would have dropped
the reference. -/
theorem C8_creation_validates_first_counterexample :
    enrich_selected_services wCatalog [ServiceRef.intRef 2] = [] ∧
    create_services_stage wCatalog [ServiceRef.intRef 2] =
      Except.error (CreateErr.validation (ValErr.notFound 2)) :=
  ⟨rfl, rfl⟩

theorem validateLoop_some_of_invalid (catalog : List Service) :
    ∀ refs : List ServiceRef,
      (∃ n, ServiceRef.intRef n ∈ refs ∧ lookup_active catalog n = none) →
      ∃ e, validateLoop catalog refs = some e := by
  intro refs
  induction refs with
  | nil =>
    rintro ⟨n, hmem, _⟩
    cases hmem
  | cons r rest ih =>
    rintro ⟨n, hmem, hlook⟩
    cases r with
    | intRef m =>
      cases hl : lookup_active catalog m with
      | none =>
        exact ⟨ValErr.notFound m, by simp [validateLoop, hl]⟩
      | some s =>
        rcases List.mem_cons.mp hmem with heq | hmem'
        · injection heq with h'
          subst h'
          rw [hl] at hlook
          cases hlook
        · obtain ⟨e, he⟩ := ih ⟨n, hmem', hlook⟩
          exact ⟨e, by simp [validateLoop, hl, he]⟩
    | dictRef sd =>
      rcases List.mem_cons.mp hmem with heq | hmem'
      · exact ServiceRef.noConfusion heq
      · cases hr : refId sd with
        | none => exact ⟨ValErr.missingId, by simp [validateLoop, hr]⟩
        | some i =>
          by_cases hi : i = 0
          · subst hi
            exact ⟨ValErr.missingId, by simp [validateLoop, hr]⟩
          · cases hl : lookup_active catalog i with
            | none =>
              exact ⟨ValErr.notFound i, by simp [validateLoop, hr, hi, hl]⟩
            | some s =>
              obtain ⟨e, he⟩ := ih ⟨n, hmem', hlook⟩
              exact ⟨e, by simp [validateLoop, hr, hi, hl, he]⟩
    | other =>
      exact ⟨ValErr.invalidFormat, by simp [validateLoop]⟩

/-- C8 (amended): the enricher silently drops a reference to a nonexistent or
inactive service; but quote creation runs `validate_service_selection` first,
which rejects the whole request with a per-service error as soon as any
reference fails to resolve, and the "no valid services" failure occurs
exactly when validation passes while the enriched list is empty. -/
theorem C8_enrich_drops_validation_rejects :
    (∀ (catalog : List Service) (n : Nat) (rest : List ServiceRef),
      lookup_active catalog n = none →
      enrich_selected_services catalog (ServiceRef.intRef n :: rest) =
        enrich_selected_services catalog rest) ∧
    (∀ (catalog : List Service) (refs : List ServiceRef),
      (∃ n, ServiceRef.intRef n ∈ refs ∧ lookup_active catalog n = none) →
      ∃ e, validate_service_selection catalog refs = some e) ∧
    (∀ (catalog : List Service) (refs : List ServiceRef),
      create_services_stage catalog refs =
          Except.error CreateErr.noValidServices ↔
        validate_service_selection catalog refs = none ∧
        enrich_selected_services catalog refs = []) := by
  refine ⟨?_, ?_, ?_⟩
  · intro catalog n rest hlook
    by_cases hn : n = 0
    · subst hn
      simp [enrich_selected_services, List.filterMap_cons, enrich_one]
    · simp [enrich_selected_services, List.filterMap_cons, enrich_one, hlook, hn]
  · intro catalog refs hex
    cases refs with
    | nil =>
      obtain ⟨n, hmem, _⟩ := hex
      cases hmem
    | cons r rest =>
      exact validateLoop_some_of_invalid catalog (r :: rest) hex
  · intro catalog refs
    constructor
    · intro h
      simp only [create_services_stage] at h
      cases hv : validate_service_selection catalog refs with
      | some e =>
        rw [hv] at h
        exact absurd h (by simp)
      | none =>
        rw [hv] at h
        cases henr : enrich_selected_services catalog refs with
        | nil => exact ⟨rfl, rfl⟩
        | cons a as =>
          rw [henr] at h
          simp at h
    · rintro ⟨hv, he⟩
      simp [create_services_stage, hv, he]

/-- C8 witness: the amended theorem applied to the one-service catalog. -/
theorem C8_enrich_drops_validation_rejects_witness :
    (lookup_active wCatalog 2 = none ∧
      enrich_selected_services wCatalog
          [ServiceRef.intRef 2, ServiceRef.intRef 1] =
        enrich_selected_services wCatalog [ServiceRef.intRef 1]) ∧
    ((∃ n, ServiceRef.intRef n ∈ [ServiceRef.intRef 2] ∧
        lookup_active wCatalog n = none) ∧
      ∃ e, validate_service_selection wCatalog [ServiceRef.intRef 2] = some e) ∧
    (create_services_stage wCatalog [ServiceRef.intRef 1] =
        Except.error CreateErr.noValidServices ↔
      validate_service_selection wCatalog [ServiceRef.intRef 1] = none ∧
      enrich_selected_services wCatalog [ServiceRef.intRef 1] = []) :=
  ⟨⟨rfl, C8_enrich_drops_validation_rejects.1 wCatalog 2 [ServiceRef.intRef 1] rfl⟩,
   ⟨⟨2, List.mem_cons_self _ _, rfl⟩,
    C8_enrich_drops_validation_rejects.2.1 wCatalog [ServiceRef.intRef 2]
      ⟨2, List.mem_cons_self _ _, rfl⟩⟩,
   C8_enrich_drops_validation_rejects.2.2 wCatalog [ServiceRef.intRef 1]⟩

theorem estLoop_spec :
    ∀ (ss : List ServiceDict) (a b : ℚ) (c : Nat),
      estLoop (a, b, c) ss =
        (a + (ss.filterMap (fun sv => sv.price_min)).sum,
         b + (ss.filterMap (fun sv => sv.price_max)).sum,
         c + ss.countP (fun sv => sv.price_min.isSome)) := by
  intro ss
  induction ss with
  | nil =>
    intro a b c
    simp [estLoop]
  | cons sv rest ih =>
    intro a b c
    simp only [estLoop]
    cases hm : sv.price_min with
    | none =>
      cases hM : sv.price_max with
      | none =>
        rw [ih]
        simp only [List.filterMap_cons, hm, hM, List.countP_cons, Option.isSome_none,
          Bool.false_eq_true, if_false, Prod.mk.injEq]
        refine ⟨by ring_nf, by ring_nf, by omega⟩
      | some pM =>
        rw [ih]
        simp only [List.filterMap_cons, hm, hM, List.countP_cons, Option.isSome_none,
          Bool.false_eq_true, if_false, List.sum_cons, Prod.mk.injEq]
        refine ⟨by ring_nf, by ring_nf, by omega⟩
    | some pm =>
      cases hM : sv.price_max with
      | none =>
        rw [ih]
        simp only [List.filterMap_cons, hm, hM, List.countP_cons, Option.isSome_some,
          if_true, List.sum_cons, Prod.mk.injEq]
        refine ⟨by ring_nf, by ring_nf, by omega⟩
      | some pM =>
        rw [ih]
        simp only [List.filterMap_cons, hm, hM, List.countP_cons, Option.isSome_some,
          if_true, List.sum_cons, Prod.mk.injEq]
        refine ⟨by ring_nf, by ring_nf, by omega⟩

/-- The truthy `price_min` values of a snapshot list (the quantities the
fallback pass of `calculate_price_estimate` sums and counts). -/
def minsOf (ss : List ServiceDict) : List ℚ :=
  ss.filterMap (fun sv => truthyPrice sv.price_min)

/-- The truthy `price_max` values of a snapshot list. -/
def maxsOf (ss : List ServiceDict) : List ℚ :=
  ss.filterMap (fun sv => truthyPrice sv.price_max)

theorem truthyQ_eq_isSome (o : Option ℚ) :
    truthyQ o = (truthyPrice o).isSome := by
  cases o with
  | none => rfl
  | some p =>
    by_cases hp : p = 0 <;> simp [truthyQ, truthyPrice, hp]

theorem availStep_spec (acc : AvailAcc) (sv : ServiceDict) :
    availStep acc sv =
      ⟨acc.availMin + (truthyPrice sv.price_min).toList.sum,
       acc.minCount + (truthyPrice sv.price_min).toList.length,
       acc.availMax + (truthyPrice sv.price_max).toList.sum,
       acc.maxCount + (truthyPrice sv.price_max).toList.length⟩ := by
  cases hm : sv.price_min with
  | none =>
    cases hM : sv.price_max with
    | none => simp [availStep, hm, hM, truthyPrice]
    | some pM =>
      by_cases hpM : pM = 0 <;> simp [availStep, hm, hM, truthyPrice, hpM]
  | some pm =>
    by_cases hpm : pm = 0
    · cases hM : sv.price_max with
      | none => simp [availStep, hm, hM, truthyPrice, hpm]
      | some pM =>
        by_cases hpM : pM = 0 <;> simp [availStep, hm, hM, truthyPrice, hpm, hpM]
    · cases hM : sv.price_max with
      | none => simp [availStep, hm, hM, truthyPrice, hpm]
      | some pM =>
        by_cases hpM : pM = 0 <;> simp [availStep, hm, hM, truthyPrice, hpm, hpM]

theorem availLoop_spec :
    ∀ (ss : List ServiceDict) (acc : AvailAcc),
      availLoop acc ss =
        ⟨acc.availMin + (minsOf ss).sum, acc.minCount + (minsOf ss).length,
         acc.availMax + (maxsOf ss).sum, acc.maxCount + (maxsOf ss).length⟩ := by
  intro ss
  induction ss with
  | nil =>
    intro acc
    simp [availLoop, minsOf, maxsOf]
  | cons sv rest ih =>
    intro acc
    have hmins : minsOf (sv :: rest) =
        (truthyPrice sv.price_min).toList ++ minsOf rest := by
      simp only [minsOf, List.filterMap_cons]
      cases truthyPrice sv.price_min <;> simp
    have hmaxs : maxsOf (sv :: rest) =
        (truthyPrice sv.price_max).toList ++ maxsOf rest := by
      simp only [maxsOf, List.filterMap_cons]
      cases truthyPrice sv.price_max <;> simp
    show availLoop (availStep acc sv) rest = _
    rw [ih (availStep acc sv), availStep_spec]
    simp only [hmins, hmaxs, List.sum_append, List.length_append,
      AvailAcc.mk.injEq]
    refine ⟨by ring_nf, by omega, by ring_nf, by omega⟩

theorem any_truthy_iff (ss : List ServiceDict) :
    (ss.any (fun sv => truthyQ sv.price_min || truthyQ sv.price_max) = true) ↔
      0 < (minsOf ss).length ∨ 0 < (maxsOf ss).length := by
  rw [List.any_eq_true]
  constructor
  · rintro ⟨sv, hmem, hor⟩
    rw [Bool.or_eq_true] at hor
    rcases hor with h | h
    · left
      rw [truthyQ_eq_isSome] at h
      obtain ⟨q, hq⟩ := Option.isSome_iff_exists.mp h
      exact List.length_pos_iff_exists_mem.mpr
        ⟨q, List.mem_filterMap.mpr ⟨sv, hmem, hq⟩⟩
    · right
      rw [truthyQ_eq_isSome] at h
      obtain ⟨q, hq⟩ := Option.isSome_iff_exists.mp h
      exact List.length_pos_iff_exists_mem.mpr
        ⟨q, List.mem_filterMap.mpr ⟨sv, hmem, hq⟩⟩
  · rintro (h | h)
    · obtain ⟨q, hq⟩ := List.length_pos_iff_exists_mem.mp h
      obtain ⟨sv, hmem, hsv⟩ := List.mem_filterMap.mp hq
      refine ⟨sv, hmem, ?_⟩
      rw [Bool.or_eq_true]
      left
      rw [truthyQ_eq_isSome, hsv]
      rfl
    · obtain ⟨q, hq⟩ := List.length_pos_iff_exists_mem.mp h
      obtain ⟨sv, hmem, hsv⟩ := List.mem_filterMap.mp hq
      refine ⟨sv, hmem, ?_⟩
      rw [Bool.or_eq_true]
      right
      rw [truthyQ_eq_isSome, hsv]
      rfl

/-- C9 (amended): for a non-empty snapshot list the estimate sums every
present `price_min` / `price_max` (an unpriced snapshot contributes zero);
when the totals are not both zero a definite estimate is returned whose
`service_count` counts only the snapshots carrying a `price_min`; when both
totals are zero, an average-based extrapolation flagged `estimated` is
returned precisely when at least one snapshot has a nonzero `price_min` and
at least one a nonzero `price_max`, and otherwise "price on request" is
returned with `service_count` equal to the full list length. -/
theorem C9_price_estimate_branches (ss : List ServiceDict) (hne : ss ≠ []) :
    (¬((ss.filterMap (fun sv => sv.price_min)).sum = 0 ∧
        (ss.filterMap (fun sv => sv.price_max)).sum = 0) →
      calculate_price_estimate ss =
        PriceEstimate.definite ((ss.filterMap (fun sv => sv.price_min)).sum)
          ((ss.filterMap (fun sv => sv.price_max)).sum)
          (ss.countP (fun sv => sv.price_min.isSome))) ∧
    ((ss.filterMap (fun sv => sv.price_min)).sum = 0 →
      (ss.filterMap (fun sv => sv.price_max)).sum = 0 →
      (0 < (minsOf ss).length → 0 < (maxsOf ss).length →
        calculate_price_estimate ss =
          PriceEstimate.estimated
            ((minsOf ss).sum / ((minsOf ss).length : ℚ) * (ss.length : ℚ))
            ((maxsOf ss).sum / ((maxsOf ss).length : ℚ) * (ss.length : ℚ))
            ss.length) ∧
      (((minsOf ss).length = 0 ∨ (maxsOf ss).length = 0) →
        calculate_price_estimate ss = PriceEstimate.onRequest ss.length)) := by
  rcases ss with _ | ⟨s0, rest⟩
  · exact absurd rfl hne
  have e1 : (estLoop (0, 0, 0) (s0 :: rest)).1 =
      ((s0 :: rest).filterMap (fun sv => sv.price_min)).sum := by
    rw [estLoop_spec]
    simp
  have e2 : (estLoop (0, 0, 0) (s0 :: rest)).2.1 =
      ((s0 :: rest).filterMap (fun sv => sv.price_max)).sum := by
    rw [estLoop_spec]
    simp
  have e3 : (estLoop (0, 0, 0) (s0 :: rest)).2.2 =
      (s0 :: rest).countP (fun sv => sv.price_min.isSome) := by
    rw [estLoop_spec]
    simp
  have a1 : (availLoop ⟨0, 0, 0, 0⟩ (s0 :: rest)).availMin =
      (minsOf (s0 :: rest)).sum := by
    rw [availLoop_spec]
    simp
  have a2 : (availLoop ⟨0, 0, 0, 0⟩ (s0 :: rest)).minCount =
      (minsOf (s0 :: rest)).length := by
    rw [availLoop_spec]
    simp
  have a3 : (availLoop ⟨0, 0, 0, 0⟩ (s0 :: rest)).availMax =
      (maxsOf (s0 :: rest)).sum := by
    rw [availLoop_spec]
    simp
  have a4 : (availLoop ⟨0, 0, 0, 0⟩ (s0 :: rest)).maxCount =
      (maxsOf (s0 :: rest)).length := by
    rw [availLoop_spec]
    simp
  constructor
  · intro h
    simp only [calculate_price_estimate, e1, e2, e3]
    rw [if_neg h]
  · intro h1 h2
    constructor
    · intro hmc hMc
      have hany := (any_truthy_iff (s0 :: rest)).mpr (Or.inl hmc)
      simp only [calculate_price_estimate, e1, e2, e3, a1, a2, a3, a4]
      rw [if_pos ⟨h1, h2⟩, if_pos hany, if_pos ⟨hmc, hMc⟩]
    · intro hor
      by_cases hany : ((s0 :: rest).any
          (fun sv => truthyQ sv.price_min || truthyQ sv.price_max)) = true
      · simp only [calculate_price_estimate, e1, e2, e3, a1, a2, a3, a4]
        rw [if_pos ⟨h1, h2⟩, if_pos hany,
          if_neg (by intro hcontra; rcases hor with h | h <;> omega)]
      · simp only [calculate_price_estimate, e1, e2, e3]
        rw [if_pos ⟨h1, h2⟩, if_neg hany]

/-- A fully priced snapshot. -/
def svPriced : ServiceDict :=
  { service_id := some 1, idField := some 1,
    price_min := some 100, price_max := some 200 }

/-- A snapshot with no pricing at all. -/
def svBare : ServiceDict :=
  { service_id := some 2, idField := some 2, price_min := none, price_max := none }

/-- A snapshot with only a positive `price_min`. -/
def svPos : ServiceDict :=
  { service_id := some 3, idField := some 3, price_min := some 5, price_max := none }

/-- A snapshot with only a negative `price_min` cancelling `svPos`. -/
def svNeg : ServiceDict :=
  { service_id := some 4, idField := some 4,
    price_min := some (-5), price_max := none }

/-- C9 counterexample: (1) a snapshot without any price does *not* count
toward `service_count` in the definite branch — two snapshots, one priced,
yield `service_count = 1`, not 2 as the claim states; (2) with totals summing
to zero while some snapshots carry (partial) pricing, the code still answers
"price on request" instead of the claimed average-based extrapolation,
because it requires both a truthy min and a truthy max. -/
theorem C9_service_count_counterexample :
    calculate_price_estimate [svPriced, svBare] =
      PriceEstimate.definite 100 200 1 ∧
    calculate_price_estimate [svPriced, svBare] ≠
      PriceEstimate.definite 100 200 2 ∧
    calculate_price_estimate [svPos, svNeg] = PriceEstimate.onRequest 2 := by
  have h1 : calculate_price_estimate [svPriced, svBare] =
      PriceEstimate.definite 100 200 1 := by
    norm_num [calculate_price_estimate, estLoop, svPriced, svBare]
  refine ⟨h1, ?_, ?_⟩
  · rw [h1]
    simp
  · norm_num [calculate_price_estimate, estLoop, availLoop, availStep,
      truthyQ, svPos, svNeg]

/-- C9 witness: the amended theorem applied to a one-snapshot list with full
pricing (definite branch). -/
theorem C9_price_estimate_branches_witness :
    (([svPriced] : List ServiceDict) ≠ [] ∧
      ¬((([svPriced] : List ServiceDict).filterMap (fun sv => sv.price_min)).sum = 0 ∧
        (([svPriced] : List ServiceDict).filterMap (fun sv => sv.price_max)).sum = 0)) ∧
    calculate_price_estimate [svPriced] =
      PriceEstimate.definite
        ((([svPriced] : List ServiceDict).filterMap (fun sv => sv.price_min)).sum)
        ((([svPriced] : List ServiceDict).filterMap (fun sv => sv.price_max)).sum)
        (([svPriced] : List ServiceDict).countP (fun sv => sv.price_min.isSome)) :=
  ⟨⟨by simp, by norm_num [svPriced, List.filterMap_cons]⟩,
    (C9_price_estimate_branches [svPriced] (by simp)).1
      (by norm_num [svPriced, List.filterMap_cons])⟩

/-- An accepted quote occupying day 0 at 12:00. -/
def aQ1 : QuoteRequest :=
  { id := 1, event_date := some 0, event_time := some wTime,
    status := QuoteStatus.ACCEPTED, has_conflict := true, created_at := 0,
    quote_sent_at := none, cancelled_at := none }

/-- A second accepted quote on the same slot, created later. -/
def aQ2 : QuoteRequest := { aQ1 with id := 2, created_at := 1 }

/-- Store with two accepted quotes on the same slot. -/
def aDB : List QuoteRequest := [aQ1, aQ2]

/-- C5 counterexample: two ACCEPTED quotes on the same slot — the conflict
detector reports a conflict for both, but list processing attaches no
`time_conflict` payload to either (the priority branch only runs for
PENDING/SENT quotes), so the earliest-created quote is *not* reported as the
priority holder and the other is not flagged non-priority. -/
theorem C5_accepted_no_priority_counterexample :
    (check_time_conflicts aDB (some aQ1.id) 0 wTime).1 = true ∧
    (check_time_conflicts aDB (some aQ2.id) 0 wTime).1 = true ∧
    (processQuote aDB aQ1).time_conflict = none ∧
    (processQuote aDB aQ2).time_conflict = none := by
  decide

/-- C5 (amended): for two active quotes A, B on the same slot with distinct
truthy ids, the conflict detector reports a conflict for both; and when their
statuses are PENDING or SENT, list processing reports A — strictly earliest
created among the slot's active quotes — as the priority holder
(`is_priority` true) and B (created later than A) as non-priority. -/
theorem C5_conflict_detector_and_priority (db : List QuoteRequest)
    (A B : QuoteRequest) (d : Nat) (t : TimeOfDay)
    (hA : A ∈ db) (hB : B ∈ db)
    (hAd : A.event_date = some d) (hAt : A.event_time = some t)
    (hBd : B.event_date = some d) (hBt : B.event_time = some t)
    (hActA : A.status.isActive = true) (hActB : B.status.isActive = true)
    (hne : A.id ≠ B.id) (hA0 : A.id ≠ 0) (hB0 : B.id ≠ 0)
    (hcr : A.created_at < B.created_at)
    (hmin : ∀ r ∈ db, r.id ≠ A.id → r.event_date = some d →
      r.event_time = some t → r.status.isActive = true →
      A.created_at < r.created_at) :
    (check_time_conflicts db (some A.id) d t).1 = true ∧
    (check_time_conflicts db (some B.id) d t).1 = true ∧
    ((A.status = QuoteStatus.PENDING ∨ A.status = QuoteStatus.SENT) →
      ((processQuote db A).time_conflict.map (fun tc => tc.is_priority)) =
        some true) ∧
    ((B.status = QuoteStatus.PENDING ∨ B.status = QuoteStatus.SENT) →
      ((processQuote db B).time_conflict.map (fun tc => tc.is_priority)) =
        some false) := by
  have hcA : (check_time_conflicts db (some A.id) d t).1 = true :=
    (check_time_conflicts_true_iff db A.id hA0 d t).mpr
      ⟨B, hB, fun h => hne h.symm, hBd, hBt, hActB⟩
  have hcB : (check_time_conflicts db (some B.id) d t).1 = true :=
    (check_time_conflicts_true_iff db B.id hB0 d t).mpr
      ⟨A, hA, hne, hAd, hAt, hActA⟩
  refine ⟨hcA, hcB, ?_, ?_⟩
  · intro hPS
    have hBdet : B ∈ detect_time_conflicts db A :=
      (mem_detect_time_conflicts db A B d t hAd hAt).mpr
        ⟨hB, hBd, hBt, fun h => hne h.symm, hActB⟩
    simp only [processQuote, hAd, hAt]
    rw [hcA, reconcile_markConflict, detect_markConflict]
    rw [if_pos ⟨rfl, by simpa only [QuoteRequest.markConflict_status] using hPS⟩]
    cases hdet : detect_time_conflicts db A with
    | nil =>
      rw [hdet] at hBdet
      cases hBdet
    | cons c cs =>
      cases hsort : sortAsc (fun r => r.created_at)
          (A.markConflict true :: c :: cs) with
      | nil =>
        have : A.markConflict true ∈ sortAsc (fun r => r.created_at)
            (A.markConflict true :: c :: cs) :=
          (mem_sortAsc _ _ _).mpr (List.mem_cons_self _ _)
        rw [hsort] at this
        cases this
      | cons first rest' =>
        obtain ⟨hfmem, hfmin⟩ := sortAsc_head_min _ _ first rest' hsort
        rcases List.mem_cons.mp hfmem with rfl | hf'
        · simp [hsort]
        · have hfd : first ∈ detect_time_conflicts db A := by
            rw [hdet]
            exact hf'
          have hp := (mem_detect_time_conflicts db A first d t hAd hAt).mp hfd
          have hlt := hmin first hp.1 hp.2.2.2.1 hp.2.1 hp.2.2.1 hp.2.2.2.2
          have hle := hfmin (A.markConflict true) (List.mem_cons_self _ _)
          rw [QuoteRequest.markConflict_created_at] at hle
          omega
  · intro hPS
    have hAdet : A ∈ detect_time_conflicts db B :=
      (mem_detect_time_conflicts db B A d t hBd hBt).mpr
        ⟨hA, hAd, hAt, hne, hActA⟩
    simp only [processQuote, hBd, hBt]
    rw [hcB, reconcile_markConflict, detect_markConflict]
    rw [if_pos ⟨rfl, by simpa only [QuoteRequest.markConflict_status] using hPS⟩]
    cases hdet : detect_time_conflicts db B with
    | nil =>
      rw [hdet] at hAdet
      cases hAdet
    | cons c cs =>
      cases hsort : sortAsc (fun r => r.created_at)
          (B.markConflict true :: c :: cs) with
      | nil =>
        have : B.markConflict true ∈ sortAsc (fun r => r.created_at)
            (B.markConflict true :: c :: cs) :=
          (mem_sortAsc _ _ _).mpr (List.mem_cons_self _ _)
        rw [hsort] at this
        cases this
      | cons first rest' =>
        obtain ⟨hfmem, hfmin⟩ := sortAsc_head_min _ _ first rest' hsort
        have hfle : first.created_at ≤ A.created_at := by
          have := hfmin A (by
            refine List.mem_cons_of_mem _ ?_
            rw [← hdet]
            exact hAdet)
          exact this
        have hfid : first.id ≠ B.id := by
          rcases List.mem_cons.mp hfmem with rfl | hf'
          · rw [QuoteRequest.markConflict_created_at] at hfle
            omega
          · have hfd : first ∈ detect_time_conflicts db B := by
              rw [hdet]
              exact hf'
            exact ((mem_detect_time_conflicts db B first d t hBd hBt).mp hfd).2.2.2.1
        simp [hsort, hfid, QuoteRequest.markConflict_id]

/-- C5 witness: the amended theorem applied to the two-pending-quote store. -/
theorem C5_conflict_detector_and_priority_witness :
    (wQ1 ∈ wDB ∧ wQ2 ∈ wDB ∧ wQ1.id ≠ wQ2.id ∧
      wQ1.created_at < wQ2.created_at ∧
      (∀ r ∈ wDB, r.id ≠ wQ1.id → r.event_date = some 0 →
        r.event_time = some wTime → r.status.isActive = true →
        wQ1.created_at < r.created_at)) ∧
    ((check_time_conflicts wDB (some wQ1.id) 0 wTime).1 = true ∧
     (check_time_conflicts wDB (some wQ2.id) 0 wTime).1 = true ∧
     ((wQ1.status = QuoteStatus.PENDING ∨ wQ1.status = QuoteStatus.SENT) →
       ((processQuote wDB wQ1).time_conflict.map (fun tc => tc.is_priority)) =
         some true) ∧
     ((wQ2.status = QuoteStatus.PENDING ∨ wQ2.status = QuoteStatus.SENT) →
       ((processQuote wDB wQ2).time_conflict.map (fun tc => tc.is_priority)) =
         some false)) :=
  ⟨⟨by decide, by decide, by decide, by decide, by decide⟩,
   C5_conflict_detector_and_priority wDB wQ1 wQ2 0 wTime (by decide) (by decide)
     rfl rfl rfl rfl (by decide) (by decide) (by decide) (by decide) (by decide)
     (by decide) (by decide)⟩

/-- Invariant of the alternative-times probe loop: every collected suggestion
comes from the fixed offset sequence, is the original time shifted by that
offset (hour modulo 24, minutes kept), lies within the studio hours, and is
conflict-free; at most `maxS` suggestions are collected, in order of
non-decreasing absolute offset. -/
def AltInv (db : List QuoteRequest) (qid : Nat) (d : Nat)
    (hour minute maxS : Nat) (s e : TimeOfDay) (st : AltState) : Prop :=
  (∀ a ∈ st.available,
    a.offset ∈ TIME_OFFSETS ∧
    a.time = mkAltTime hour minute a.offset ∧
    s.toMinutes ≤ a.time.toMinutes ∧ a.time.toMinutes ≤ e.toMinutes ∧
    (check_time_conflicts db (some qid) d a.time).1 = false) ∧
  st.available.length ≤ maxS ∧
  st.available.Pairwise (fun a b => a.offset.natAbs ≤ b.offset.natAbs)

theorem altStep_inv (db : List QuoteRequest) (qid : Nat) (d : Nat)
    (hour minute maxS : Nat) (s e : TimeOfDay) (st : AltState) (off : Int)
    (hoff : off ∈ TIME_OFFSETS)
    (hbnd : ∀ a ∈ st.available, a.offset.natAbs ≤ off.natAbs)
    (hinv : AltInv db qid d hour minute maxS s e st) :
    AltInv db qid d hour minute maxS s e
      (altStep db qid d hour minute maxS s e st off) ∧
    ∀ a ∈ (altStep db qid d hour minute maxS s e st off).available,
      a ∈ st.available ∨ a.offset = off := by
  by_cases h1 : maxS ≤ st.available.length
  · simp only [altStep, if_pos h1]
    exact ⟨hinv, fun a ha => Or.inl ha⟩
  · by_cases h2 : mkAltTime hour minute off ∈ st.checked_times
    · simp only [altStep, if_neg h1, if_pos h2]
      exact ⟨hinv, fun a ha => Or.inl ha⟩
    · by_cases h3 : (mkAltTime hour minute off).toMinutes < s.toMinutes ∨
        e.toMinutes < (mkAltTime hour minute off).toMinutes
      · simp only [altStep, if_neg h1, if_neg h2, if_pos h3]
        exact ⟨hinv, fun a ha => Or.inl ha⟩
      · by_cases h4 : (check_time_conflicts db (some qid) d
            (mkAltTime hour minute off)).1 = true
        · simp only [altStep, if_neg h1, if_neg h2, if_neg h3, if_pos h4]
          exact ⟨hinv, fun a ha => Or.inl ha⟩
        · simp only [altStep, if_neg h1, if_neg h2, if_neg h3, if_neg h4]
          obtain ⟨hmem, hlen, hpw⟩ := hinv
          push_neg at h3
          refine ⟨⟨?_, ?_, ?_⟩, ?_⟩
          · intro a ha
            rcases List.mem_append.mp ha with ha' | ha'
            · exact hmem a ha'
            · rcases List.mem_singleton.mp ha' with rfl
              exact ⟨hoff, rfl, h3.1, h3.2, by simpa using h4⟩
          · rw [List.length_append]
            simp only [List.length_singleton]
            omega
          · rw [List.pairwise_append]
            refine ⟨hpw, List.pairwise_singleton _ _, ?_⟩
            intro a ha b hb
            rcases List.mem_singleton.mp hb with rfl
            exact hbnd a ha
          · intro a ha
            rcases List.mem_append.mp ha with ha' | ha'
            · exact Or.inl ha'
            · rcases List.mem_singleton.mp ha' with rfl
              exact Or.inr rfl

theorem altLoop_inv (db : List QuoteRequest) (qid : Nat) (d : Nat)
    (hour minute maxS : Nat) (s e : TimeOfDay) :
    ∀ (L : List Int) (st : AltState),
      (∀ o ∈ L, o ∈ TIME_OFFSETS) →
      L.Pairwise (fun x y => x.natAbs ≤ y.natAbs) →
      (∀ a ∈ st.available, ∀ o ∈ L, a.offset.natAbs ≤ o.natAbs) →
      AltInv db qid d hour minute maxS s e st →
      AltInv db qid d hour minute maxS s e
        (altLoop db qid d hour minute maxS s e st L) := by
  intro L
  induction L with
  | nil =>
    intro st _ _ _ hinv
    exact hinv
  | cons o rest ih =>
    intro st hsub hpw hbnd hinv
    obtain ⟨hinv', hnew⟩ := altStep_inv db qid d hour minute maxS s e st o
      (hsub o (List.mem_cons_self _ _))
      (fun a ha => hbnd a ha o (List.mem_cons_self _ _)) hinv
    refine ih (altStep db qid d hour minute maxS s e st o)
      (fun o' ho' => hsub o' (List.mem_cons_of_mem _ ho'))
      (List.pairwise_cons.mp hpw).2 ?_ hinv'
    intro a ha o' ho'
    rcases hnew a ha with ha' | ha'
    · exact hbnd a ha' o' (List.mem_cons_of_mem _ ho')
    · rw [ha']
      exact (List.pairwise_cons.mp hpw).1 o' ho'

/-- C3: every suggestion returned by the alternative-time search is the
original time with the hour shifted by one of the probed offsets ±1..±6
(modulo 24, minutes kept), lies within the studio hours of the event date's
weekday, and has no conflicting active quote at the same date and time other
than the quote itself; at most `maxS` suggestions are returned, ordered by
non-decreasing distance of the probed offset. -/
theorem C3_alternative_times_verified (db : List QuoteRequest)
    (q : QuoteRequest) (maxS : Nat) (d : Nat) (t0 : TimeOfDay)
    (s e : TimeOfDay) (hd : q.event_date = some d) (ht : q.event_time = some t0)
    (hh : STUDIO_HOURS (d % 7) = some (s, e)) (hid : q.id ≠ 0) :
    (∀ a ∈ (generate_verified_alternative_times db q maxS).available_times,
      a.offset ∈ TIME_OFFSETS ∧
      a.time = mkAltTime t0.hour t0.minute a.offset ∧
      s.toMinutes ≤ a.time.toMinutes ∧ a.time.toMinutes ≤ e.toMinutes ∧
      ¬ ∃ r ∈ db, r.id ≠ q.id ∧ r.event_date = some d ∧
        r.event_time = some a.time ∧ r.status.isActive = true) ∧
    (generate_verified_alternative_times db q maxS).available_times.length ≤
      maxS ∧
    (generate_verified_alternative_times db q maxS).available_times.Pairwise
      (fun a b => a.offset.natAbs ≤ b.offset.natAbs) := by
  have hinv := altLoop_inv db q.id d t0.hour t0.minute maxS s e TIME_OFFSETS
    ⟨[], [], 0, 0, 0⟩ (fun o ho => ho) (by decide)
    (fun a ha => absurd ha (List.not_mem_nil a))
    ⟨fun a ha => absurd ha (List.not_mem_nil a), Nat.zero_le _,
      List.Pairwise.nil⟩
  simp only [generate_verified_alternative_times, hd, ht, hh]
  obtain ⟨hmem, hlen, hpw⟩ := hinv
  refine ⟨?_, hlen, hpw⟩
  intro a ha
  obtain ⟨h1, h2, h3, h4, h5⟩ := hmem a ha
  refine ⟨h1, h2, h3, h4, ?_⟩
  intro hex
  exact absurd ((check_time_conflicts_true_iff db q.id hid d a.time).mpr hex)
    (by rw [h5]; exact Bool.false_ne_true)

/-- C3 witness: the theorem applied to the empty store, a Monday-noon quote
and five requested suggestions. -/
theorem C3_alternative_times_verified_witness :
    (wQ1.event_date = some 0 ∧ wQ1.event_time = some wTime ∧
      STUDIO_HOURS (0 % 7) = some (⟨8, 0⟩, ⟨21, 0⟩) ∧ wQ1.id ≠ 0) ∧
    ((∀ a ∈ (generate_verified_alternative_times [] wQ1 5).available_times,
      a.offset ∈ TIME_OFFSETS ∧
      a.time = mkAltTime wTime.hour wTime.minute a.offset ∧
      (⟨8, 0⟩ : TimeOfDay).toMinutes ≤ a.time.toMinutes ∧
      a.time.toMinutes ≤ (⟨21, 0⟩ : TimeOfDay).toMinutes ∧
      ¬ ∃ r ∈ ([] : List QuoteRequest), r.id ≠ wQ1.id ∧ r.event_date = some 0 ∧
        r.event_time = some a.time ∧ r.status.isActive = true) ∧
    (generate_verified_alternative_times [] wQ1 5).available_times.length ≤ 5 ∧
    (generate_verified_alternative_times [] wQ1 5).available_times.Pairwise
      (fun a b => a.offset.natAbs ≤ b.offset.natAbs)) :=
  ⟨⟨rfl, rfl, rfl, by decide⟩,
   C3_alternative_times_verified [] wQ1 5 0 wTime ⟨8, 0⟩ ⟨21, 0⟩ rfl rfl rfl
     (by decide)⟩
